import Mathlib

/-!
Verification of the a11y-pipeline orchestrator (`run-task.ts`) and its
page-discovery traversal (`scripts/crawl.ts`) against the repository's
natural-language specification.

The embedding models:
* the WHATWG-`URL` behaviors the scripts rely on (scheme/host lowercasing,
  default-port elision, fragment isolation), for the grammar subset
  `scheme://host[:port][/path][?query][#fragment]` plus opaque non-special
  schemes such as `mailto:` / `tel:` (no percent-encoding, userinfo,
  dot-segment or protocol-relative handling — none of the analysed inputs
  use them);
* the breadth-first crawler loop of `scripts/crawl.ts`, with page
  navigation and link extraction abstracted into an oracle;
* the status-relevant behavior of the orchestrator `run-task.ts`
  (`findNextPending`, the run loop, the `task.ini` writes, the inline
  crawl's own `task.ini` write).
-/

namespace A11y

/-! ## Characters and low-level string machinery -/

/-- Split a character list at the first occurrence of `c`; `none` if absent. -/
def splitFirst (c : Char) : List Char → Option (List Char × List Char)
  | [] => none
  | x :: xs =>
    if x = c then some ([], xs)
    else
      match splitFirst c xs with
      | none => none
      | some (l, r) => some (x :: l, r)

/-- Take characters until the predicate holds; returns (taken, rest). -/
def takeUntil (p : Char → Bool) : List Char → List Char × List Char
  | [] => ([], [])
  | x :: xs =>
    if p x then ([], x :: xs)
    else
      let (l, r) := takeUntil p xs
      (x :: l, r)

/-- Decimal value of a digit list (most significant first). -/
def digitsVal (l : List Char) : Nat :=
  l.foldl (fun acc c => 10 * acc + (c.toNat - 48)) 0

/-- Decimal digit characters of a natural number, most significant first. -/
def natDigits (n : Nat) : List Char :=
  if h : n < 10 then [Char.ofNat (48 + n)]
  else natDigits (n / 10) ++ [Char.ofNat (48 + n % 10)]
decreasing_by
  have : 10 ≤ n := Nat.le_of_not_lt h
  exact Nat.div_lt_self (by omega) (by omega)

/-! ## URL data model -/

/-- Parsed URL: either a "special" http(s) URL with authority, or an
opaque-path URL (`mailto:`, `tel:`, …) whose origin is `"null"`. -/
inductive Url where
  | special (scheme host : String) (port : Option Nat) (path : String)
      (query : Option String) (fragment : Option String)
  | opaq (scheme : String) (rest : String) (fragment : Option String)
deriving DecidableEq, Repr

def defaultPort (scheme : String) : Option Nat :=
  if scheme = "http" then some 80
  else if scheme = "https" then some 443
  else none

/-- URL scheme syntax: a letter followed by letters, digits, `+`, `-`, `.`. -/
def schemeOk (l : List Char) : Bool :=
  match l with
  | [] => false
  | c :: cs => c.isAlpha && cs.all fun d => d.isAlphanum || d = '+' || d = '-' || d = '.'

def isAuthorityEnd (c : Char) : Bool :=
  c = '/' || c = '?' || c = '#'

/-- Parse the part after `scheme:` for an http(s) URL. -/
def parseSpecialRest (scheme : String) (rest : List Char) : Option Url :=
  match rest with
  | '/' :: '/' :: r =>
    let (auth, tail) := takeUntil isAuthorityEnd r
    let (hostCs, portPart) :=
      match splitFirst ':' auth with
      | none => (auth, none)
      | some (h, p) => (h, some p)
    if hostCs = [] then none
    else if hostCs.any (fun c => c = '@') then none
    else
      let host := String.mk (hostCs.map Char.toLower)
      let port? : Option (Option Nat) :=
        match portPart with
        | none => some none
        | some [] => some none
        | some ds =>
          if ds.all Char.isDigit then
            if some (digitsVal ds) = defaultPort scheme then some none
            else some (some (digitsVal ds))
          else none
      match port? with
      | none => none
      | some port =>
        let (beforeHash, frag) :=
          match splitFirst '#' tail with
          | none => (tail, (none : Option String))
          | some (b, f) => (b, some (String.mk f))
        let (pathCs, query) :=
          match splitFirst '?' beforeHash with
          | none => (beforeHash, (none : Option String))
          | some (p, q) => (p, some (String.mk q))
        let path := if pathCs = [] then "/" else String.mk pathCs
        some (Url.special scheme host port path query frag)
  | _ => none

/-- Shallow embedding of `new URL(s)` (throws ↦ `none`), for the grammar
subset described in the file header. -/
def parseUrl (s : String) : Option Url :=
  match splitFirst ':' s.data with
  | none => none
  | some (schCs, rest) =>
    if schemeOk schCs then
      let scheme := String.mk (schCs.map Char.toLower)
      if scheme = "http" ∨ scheme = "https" then parseSpecialRest scheme rest
      else
        match splitFirst '#' rest with
        | none => some (Url.opaq scheme (String.mk rest) none)
        | some (b, f) => some (Url.opaq scheme (String.mk b) (some (String.mk f)))
    else none

def portString : Option Nat → String
  | none => ""
  | some p => ":" ++ String.mk (natDigits p)

def queryPart : Option String → String
  | none => ""
  | some qs => "?" ++ qs

def fragPart : Option String → String
  | none => ""
  | some fs => "#" ++ fs

/-- Serialization (`url.toString()` / `url.href`). -/
def Url.href : Url → String
  | .special sch host port path q f =>
    sch ++ "://" ++ host ++ portString port ++ path ++ queryPart q ++ fragPart f
  | .opaq sch rest f =>
    sch ++ ":" ++ rest ++ fragPart f

/-- Effect of `url.hash = ""`. -/
def Url.clearFragment : Url → Url
  | .special sch h p pa q _ => .special sch h p pa q none
  | .opaq sch r _ => .opaq sch r none

/-- `url.origin`: scheme+host+port for http(s), the string `"null"` for
opaque-origin URLs (this is what the JS `===` comparison sees). -/
def Url.origin : Url → String
  | .special sch host port _ _ _ => sch ++ "://" ++ host ++ portString port
  | .opaq _ _ _ => "null"

def Url.schemeOf : Url → String
  | .special s _ _ _ _ _ => s
  | .opaq s _ _ => s

/-- `normalizeUrl` from `scripts/crawl.ts` lines 16–21:
`const url = new URL(u); url.hash = ""; return url.toString();`.
`none` models the `new URL` constructor throwing. -/
def normalizeUrl (u : String) : Option String :=
  (parseUrl u).map fun x => x.clearFragment.href

/-- `isSameOrigin` from `scripts/crawl.ts` lines 23–25:
`new URL(base).origin === new URL(target).origin`; `none` models a throw. -/
def isSameOrigin (base target : String) : Option Bool := do
  let b ← parseUrl base
  let t ← parseUrl target
  pure (b.origin == t.origin)

/-- `new URL(n).protocol` (`scripts/crawl.ts` line 62). -/
def urlProtocol (u : String) : Option String :=
  (parseUrl u).map fun x => x.schemeOf ++ ":"

/-! ## The crawler of `scripts/crawl.ts`

Page navigation and link extraction are abstracted into an oracle:
`unreachable` models `page.goto` throwing; `evalFail` models a successful
navigation after which `page.$$eval` throws; `links ls` models a successful
navigation yielding the anchors' `href` strings in document order. -/

inductive PageResult where
  | unreachable
  | evalFail
  | links (ls : List String)

/-- The link-harvest loop of `scripts/crawl.ts` lines 57–65.  Returns the
links pushed onto the queue, in order, and `true` iff the loop ran to
completion (a `false` second component models `normalizeUrl` / `new URL`
throwing on some link, which aborts the `try` block: links before the bad
one are already enqueued, the rest are dropped). -/
def harvestLinks (baseUrl : String) (visited : List String) : List String → List String × Bool
  | [] => ([], true)
  | l :: ls =>
    match normalizeUrl l with
    | none => ([], false)
    | some n =>
      match isSameOrigin baseUrl n with
      | none => ([], false)
      | some so =>
        if !so then harvestLinks baseUrl visited ls
        else if n ∈ visited then harvestLinks baseUrl visited ls
        else
          match urlProtocol n with
          | none => ([], false)
          | some proto =>
            if proto ≠ "http:" ∧ proto ≠ "https:" then harvestLinks baseUrl visited ls
            else
              let (rest, ok) := harvestLinks baseUrl visited ls
              (n :: rest, ok)

structure CrawlState where
  queue : List String
  visited : List String
  discovered : List String
deriving DecidableEq, Repr

inductive StepOut where
  | halted (result : List String)
  | threw
  | next (s : CrawlState)
deriving DecidableEq, Repr

/-- One iteration of the `while` loop of `scripts/crawl.ts` lines 42–70.
`halted` = loop condition false; `threw` = the un-guarded
`normalizeUrl(queue.shift()!)` on line 43 threw (only possible when the
dequeued string is unparsable, i.e. for a bad seed); `next` = the state at
the next loop head.  Note the faithful double `discovered.push` when link
extraction fails after a successful navigation: the `catch` on lines 66–69
pushes `current` even though line 49 already did. -/
def crawlStep (baseUrl : String) (page : String → PageResult) (maxPages : Nat)
    (s : CrawlState) : StepOut :=
  match s.queue with
  | [] => .halted s.discovered
  | q :: qs =>
    if s.discovered.length < maxPages then
      match normalizeUrl q with
      | none => .threw
      | some current =>
        if current ∈ s.visited then .next ⟨qs, s.visited, s.discovered⟩
        else
          let visited' := current :: s.visited
          match page current with
          | .unreachable => .next ⟨qs, visited', s.discovered ++ [current]⟩
          | .evalFail => .next ⟨qs, visited', s.discovered ++ [current, current]⟩
          | .links ls =>
            let (enq, ok) := harvestLinks baseUrl visited' ls
            .next ⟨qs ++ enq, visited',
              s.discovered ++ (if ok then [current] else [current, current])⟩
    else .halted s.discovered

/-- The full `while` loop of `scripts/crawl.ts` lines 42–70, run to
completion (`none` models the whole script failing with an exception). -/
def crawlLoop (baseUrl : String) (page : String → PageResult) (maxPages : Nat)
    (s : CrawlState) : Option (List String) :=
  match h : crawlStep baseUrl page maxPages s with
  | .halted r => some r
  | .threw => none
  | .next s' => crawlLoop baseUrl page maxPages s'
termination_by (maxPages - s.discovered.length, s.queue.length)
decreasing_by
  have hdec : s.discovered.length < s'.discovered.length ∧ s.discovered.length < maxPages ∨
      s'.discovered = s.discovered ∧ s'.queue.length < s.queue.length := by
    obtain ⟨qu, vis, disc⟩ := s
    unfold crawlStep at h
    rcases qu with _ | ⟨q, qs⟩
    · simp at h
    · simp only at h
      by_cases hlen : disc.length < maxPages
      · rw [if_pos hlen] at h
        rcases hn : normalizeUrl q with _ | current <;> rw [hn] at h
        · simp at h
        · simp only at h
          by_cases hv : current ∈ vis
          · rw [if_pos hv] at h
            cases h
            right
            simp
          · rw [if_neg hv] at h
            rcases hp : page current with _ | _ | ls <;> rw [hp] at h <;>
              simp only [StepOut.next.injEq] at h <;> subst h <;>
              left <;> simp [hlen] <;> split <;> simp
      · rw [if_neg hlen] at h
        simp at h
  rcases hdec with ⟨h1, h2⟩ | ⟨h1, h2⟩
  · exact Prod.Lex.left _ _ (by omega)
  · rw [h1]
    exact Prod.Lex.right _ h2

/-- The `discover` contract of spec §4.1, as implemented by
`scripts/crawl.ts` `main` lines 38–70: BFS from the seed with the given
page budget. -/
def discover (baseUrl : String) (page : String → PageResult) (maxPages : Nat) :
    Option (List String) :=
  crawlLoop baseUrl page maxPages ⟨[baseUrl], [], []⟩

/-- Iterated crawl steps: the state at the head of the `n`-th loop
iteration, when the loop is still running there. -/
def iterateCrawl (baseUrl : String) (page : String → PageResult) (maxPages : Nat) :
    Nat → CrawlState → Option CrawlState
  | 0, s => some s
  | n + 1, s =>
    match crawlStep baseUrl page maxPages s with
    | .next s' => iterateCrawl baseUrl page maxPages n s'
    | _ => none

/-- A link the crawler is allowed to enqueue: same origin as the seed (as
the code's `isSameOrigin` computes it) and an `http:`/`https:` protocol. -/
def goodLink (base u : String) : Prop :=
  isSameOrigin base u = some true ∧
    (urlProtocol u = some "http:" ∨ urlProtocol u = some "https:")

instance (base u : String) : Decidable (goodLink base u) := by
  unfold goodLink
  infer_instance

/-! ## The orchestrator of `run-task.ts` (status-relevant behavior)

The persisted `task.ini` is modelled by its five stage statuses.  The
orchestrator keeps an in-memory copy `mem` read once at startup; stage
execution outcomes ("completes" vs "throws") are an oracle
`outcome : TaskName → Bool`.  The only `task.ini` write performed by a
stage body itself is `runCrawlInline`'s trailing re-read/update
(lines 207–214), which marks the `snapshot` stage `done`. -/

inductive Status where
  | pending
  | running
  | done
  | failed
deriving DecidableEq, Repr

inductive TaskName where
  | crawl
  | snapshot
  | axe_scan
  | filter
  | report
deriving DecidableEq, Repr

/-- `TASK_ORDER` from `run-task.ts` line 7. -/
def TASK_ORDER : List TaskName := [.crawl, .snapshot, .axe_scan, .filter, .report]

/-- The statuses persisted in `task.ini` (one per `[task.*]` section). -/
structure TaskCfg where
  crawl : Status
  snapshot : Status
  axe_scan : Status
  filter : Status
  report : Status
deriving DecidableEq, Repr

def TaskCfg.get (c : TaskCfg) : TaskName → Status
  | .crawl => c.crawl
  | .snapshot => c.snapshot
  | .axe_scan => c.axe_scan
  | .filter => c.filter
  | .report => c.report

/-- `setStatus` from `run-task.ts` lines 39–43. -/
def TaskCfg.set (c : TaskCfg) : TaskName → Status → TaskCfg
  | .crawl, s => { c with crawl := s }
  | .snapshot, s => { c with snapshot := s }
  | .axe_scan, s => { c with axe_scan := s }
  | .filter, s => { c with filter := s }
  | .report, s => { c with report := s }

/-- The selection predicate of `findNextPending` (`run-task.ts` lines 55–57):
a stage is eligible when its status is `pending` or `running`. -/
def statusActionable (s : Status) : Bool :=
  s == .pending || s == .running

/-- `findNextPending` from `run-task.ts` lines 53–60: first stage in fixed
order whose status is `pending` or `running`; `done` and `failed` stages
are skipped. -/
def findNextPending (c : TaskCfg) : Option TaskName :=
  TASK_ORDER.find? fun t => statusActionable (c.get t)

/-- `resetAllTasks` from `run-task.ts` lines 49–51. -/
def resetAllTasks (_c : TaskCfg) : TaskCfg :=
  ⟨.pending, .pending, .pending, .pending, .pending⟩

/-- The `task.ini` write a stage body itself performs during a successful
execution, given the file contents it re-reads: `runCrawlInline` marks the
`snapshot` stage `done` (`run-task.ts` lines 207–214); no other stage
script writes statuses. -/
def stageIniEffect : TaskName → TaskCfg → TaskCfg
  | .crawl, f => f.set .snapshot .done
  | _, f => f

structure RunResult where
  executed : List TaskName
  file : TaskCfg
  writes : List TaskCfg
  ok : Bool
deriving DecidableEq, Repr

def actOne : Status → Nat
  | .pending => 1
  | .running => 1
  | .done => 0
  | .failed => 0

def countActionable (c : TaskCfg) : Nat :=
  actOne c.crawl + actOne c.snapshot + actOne c.axe_scan + actOne c.filter + actOne c.report

/-- The `while (true)` loop of `run-task.ts` `main` lines 290–325.
`mem` is the in-memory `cfg`, `file` the persisted `task.ini`; `writes`
and `executed` accumulate (newest first) the file states written and the
stages invoked.  On success the orchestrator persists its own in-memory
state (line 310), overwriting whatever the stage body wrote; on failure it
marks the stage `failed` and exits with a failure signal (lines 317–321). -/
def runLoop (outcome : TaskName → Bool) (autoAfterCrawl : Bool)
    (mem file : TaskCfg) (runAll : Bool)
    (executed : List TaskName) (writes : List TaskCfg) : RunResult :=
  match h : findNextPending mem with
  | none => ⟨executed.reverse, file, writes.reverse, true⟩
  | some t =>
    let mem1 := mem.set t .running
    if outcome t then
      let stageWrites := if t = .crawl then [stageIniEffect t mem1] else []
      let mem2 := mem1.set t .done
      let runAll2 := runAll || (t == .crawl && autoAfterCrawl)
      if runAll2 then
        runLoop outcome autoAfterCrawl mem2 mem2 runAll2 (t :: executed)
          (mem2 :: stageWrites ++ mem1 :: writes)
      else
        ⟨(t :: executed).reverse, mem2, (mem2 :: stageWrites ++ mem1 :: writes).reverse, true⟩
    else
      let memF := mem1.set t .failed
      ⟨(t :: executed).reverse, memF, (memF :: mem1 :: writes).reverse, false⟩
termination_by countActionable mem
decreasing_by
  have h' := h
  unfold findNextPending at h'
  have hact : statusActionable (mem.get t) = true := by
    simpa using List.find?_some h'
  have h1 : ∀ s : Status, statusActionable s = true → actOne s = 1 := by
    intro s hs
    cases s
    · rfl
    · rfl
    · exact absurd hs (by decide)
    · exact absurd hs (by decide)
  cases t <;>
    simp only [TaskCfg.get] at hact <;>
    simp [countActionable, TaskCfg.set, h1 _ hact] <;>
    rfl

/-- A non-reset invocation of `run-task.ts` `main` (lines 264–326), starting
from the persisted statuses `initial`; `runAll` is the `--all` flag,
`autoAfterCrawl` the `global.auto_run_after_crawl` option. -/
def runTask (initial : TaskCfg) (runAll autoAfterCrawl : Bool)
    (outcome : TaskName → Bool) : RunResult :=
  runLoop outcome autoAfterCrawl initial initial runAll [] []

def allPending : TaskCfg :=
  ⟨.pending, .pending, .pending, .pending, .pending⟩

/-- Execution oracle in which every stage completes successfully. -/
def allSucceed : TaskName → Bool := fun _ => true

/-! ## The inline Discovery execution of `runCrawlInline`
(`run-task.ts` lines 167–205) -/

/-- The fallback of `process.env.A11Y_URLS ?? process.env.A11Y_EXTRA_PATHS`
(`run-task.ts` line 169). -/
def DEFAULT_A11Y_PATHS : String := "/home,/advisor-dashboard,/programme,/organisation"

/-- `String.split` at a separator character, over character lists. -/
def splitOnChar (c : Char) : List Char → List (List Char)
  | [] => [[]]
  | x :: xs =>
    if x = c then [] :: splitOnChar c xs
    else
      match splitOnChar c xs with
      | [] => [[x]]
      | h :: t => (x :: h) :: t

/-- `s.trim()`: strip leading and trailing whitespace. -/
def trimChars (l : List Char) : List Char :=
  ((l.dropWhile Char.isWhitespace).reverse.dropWhile Char.isWhitespace).reverse

/-- `rawList.split(",").map(trim).filter(Boolean)` (line 170). -/
def parseCsvList (raw : String) : List String :=
  ((splitOnChar ',' raw.data).map fun l => String.mk (trimChars l)).filter fun x => x ≠ ""

def splitPathQueryFrag (l : List Char) : String × Option String × Option String :=
  let (beforeHash, frag) :=
    match splitFirst '#' l with
    | none => (l, (none : Option String))
    | some (b, f) => (b, some (String.mk f))
  let (pathCs, query) :=
    match splitFirst '?' beforeHash with
    | none => (beforeHash, (none : Option String))
    | some (p, q) => (p, some (String.mk q))
  (String.mk pathCs, query, frag)

/-- `new URL(p, baseUrl).toString()` (`run-task.ts` line 174), for the
subset used here: `p` is either an absolute URL or an absolute path
(`/...`); `none` models a throw (line 176 ignores it). -/
def resolveUrl (p base : String) : Option String :=
  match parseUrl p with
  | some u => some u.href
  | none =>
    match p.data with
    | '/' :: '/' :: _ => none
    | '/' :: rest =>
      match parseUrl base with
      | some (.special sch host port _ _ _) =>
        let (pa, q, f) := splitPathQueryFrag ('/' :: rest)
        some (Url.special sch host port pa q f).href
      | _ => none
    | _ => none

/-- The URL list `runCrawlInline` resolves from its configured path list
(`run-task.ts` lines 169–179). -/
def inlineUrlList (baseUrl rawList : String) : List String :=
  (parseCsvList rawList).filterMap fun p => resolveUrl p baseUrl

/-- The snapshot loop of `runCrawlInline` (lines 181–196): both the success
and the failure branch push the URL onto `captured`. -/
def captureLoop (nav : String → Bool) : List String → List String
  | [] => []
  | u :: us => if nav u then u :: captureLoop nav us else u :: captureLoop nav us

/-- The URL list `runCrawlInline` persists to `inputs/urls.json`
(lines 181–205). -/
def inlineDiscoveryList (baseUrl rawList : String) (nav : String → Bool) : List String :=
  captureLoop nav (inlineUrlList baseUrl rawList)

/-! ## Canonical-form predicates for URL components (used to state what
normalization preserves) -/

def hostOk (host : String) : Prop :=
  host ≠ "" ∧ ∀ c ∈ host.data,
    c.toLower = c ∧ c ≠ '/' ∧ c ≠ '?' ∧ c ≠ '#' ∧ c ≠ ':' ∧ c ≠ '@'

def pathOk (path : String) : Prop :=
  (∃ rest, path.data = '/' :: rest) ∧ ∀ c ∈ path.data, c ≠ '?' ∧ c ≠ '#'

def queryOk : Option String → Prop
  | none => True
  | some q => ∀ c ∈ q.data, c ≠ '#'

def portOkC (scheme : String) : Option Nat → Prop
  | none => True
  | some p => some p ≠ defaultPort scheme

/-! ## Concrete oracles used by witnesses -/

/-- Navigation oracle: the seed is unreachable, every other page renders
with no links. -/
def pageW8 : String → PageResult := fun u =>
  if u = "https://a.example/" then .unreachable else .links []

/-- Navigation oracle: every page carries one same-origin link, one
`mailto:` link and one cross-origin link. -/
def pageW9 : String → PageResult := fun _ =>
  .links ["https://a.example/p", "mailto:x@y.example", "https://other.example/q"]

theorem crawlLoop_halted (baseUrl : String) (page : String → PageResult)
    (maxPages : Nat) (s : CrawlState) (r : List String)
    (h : crawlStep baseUrl page maxPages s = .halted r) :
    crawlLoop baseUrl page maxPages s = some r := by
  rw [crawlLoop]
  split <;> simp_all

theorem crawlLoop_next (baseUrl : String) (page : String → PageResult)
    (maxPages : Nat) (s s' : CrawlState)
    (h : crawlStep baseUrl page maxPages s = .next s') :
    crawlLoop baseUrl page maxPages s = crawlLoop baseUrl page maxPages s' := by
  rw [crawlLoop]
  split <;> simp_all

theorem crawlStep_halted_eq (baseUrl : String) (page : String → PageResult)
    (maxPages : Nat) (s : CrawlState) (r : List String)
    (h : crawlStep baseUrl page maxPages s = .halted r) : r = s.discovered := by
  obtain ⟨qu, vis, disc⟩ := s
  unfold crawlStep at h
  rcases qu with _ | ⟨q, qs⟩
  · simp_all
  · simp only at h
    by_cases hlen : disc.length < maxPages
    · rw [if_pos hlen] at h
      rcases hn : normalizeUrl q with _ | current <;> rw [hn] at h
      · simp at h
      · simp only at h
        by_cases hv : current ∈ vis
        · rw [if_pos hv] at h
          simp at h
        · rw [if_neg hv] at h
          rcases hp : page current with _ | _ | ls <;> rw [hp] at h <;> simp_all
    · rw [if_neg hlen] at h
      simp_all

theorem crawlStep_next_discovered (baseUrl : String) (page : String → PageResult)
    (maxPages : Nat) (s s' : CrawlState)
    (h : crawlStep baseUrl page maxPages s = .next s') :
    ∃ t, s'.discovered = s.discovered ++ t := by
  obtain ⟨qu, vis, disc⟩ := s
  unfold crawlStep at h
  rcases qu with _ | ⟨q, qs⟩
  · simp at h
  · simp only at h
    by_cases hlen : disc.length < maxPages
    · rw [if_pos hlen] at h
      rcases hn : normalizeUrl q with _ | current <;> rw [hn] at h
      · simp at h
      · simp only at h
        by_cases hv : current ∈ vis
        · rw [if_pos hv] at h
          cases h
          exact ⟨[], by simp⟩
        · rw [if_neg hv] at h
          rcases hp : page current with _ | _ | ls <;> rw [hp] at h <;>
            simp only [StepOut.next.injEq] at h <;> subst h
          · exact ⟨[current], rfl⟩
          · exact ⟨[current, current], rfl⟩
          · exact ⟨_, rfl⟩
    · rw [if_neg hlen] at h
      simp at h

/-- The crawl loop only ever appends to the discovery list. -/
theorem crawlLoop_extends (baseUrl : String) (page : String → PageResult)
    (maxPages : Nat) (s : CrawlState) :
    ∀ r, crawlLoop baseUrl page maxPages s = some r → ∃ t, r = s.discovered ++ t := by
  induction s using crawlLoop.induct baseUrl page maxPages with
  | case1 s r0 hstep =>
    intro r hr
    rw [crawlLoop_halted _ _ _ _ _ hstep] at hr
    cases hr
    exact ⟨[], by simp [crawlStep_halted_eq _ _ _ _ _ hstep]⟩
  | case2 s hstep =>
    intro r hr
    rw [crawlLoop] at hr
    split at hr <;> simp_all
  | case3 s s' hstep ih =>
    intro r hr
    rw [crawlLoop_next _ _ _ _ _ hstep] at hr
    obtain ⟨t2, ht2⟩ := ih r hr
    obtain ⟨t1, ht1⟩ := crawlStep_next_discovered _ _ _ _ _ hstep
    exact ⟨t1 ++ t2, by rw [ht2, ht1, List.append_assoc]⟩

theorem harvestLinks_good (base : String) (visited ls : List String) :
    ∀ u ∈ (harvestLinks base visited ls).1, goodLink base u := by
  induction ls with
  | nil => simp [harvestLinks]
  | cons l ls ih =>
    unfold harvestLinks
    rcases hn : normalizeUrl l with _ | n
    · simp
    · simp only
      rcases hso : isSameOrigin base n with _ | so
      · simp
      · simp only
        by_cases hb : !so
        · rw [if_pos hb]
          exact ih
        · rw [if_neg hb]
          by_cases hv : n ∈ visited

          · rw [if_pos hv]
            exact ih
          · rw [if_neg hv]
            rcases hp : urlProtocol n with _ | proto
            · simp
            · simp only
              by_cases hpp : proto ≠ "http:" ∧ proto ≠ "https:"
              · rw [if_pos hpp]
                exact ih
              · rw [if_neg hpp]
                rcases hh : harvestLinks base visited ls with ⟨rest, ok⟩
                intro u hu
                simp only [List.mem_cons] at hu
                rcases hu with rfl | hu
                · refine ⟨?_, ?_⟩
                  · have : so = true := by
                      cases so <;> simp_all
                    rw [hso, this]
                  · rcases Decidable.not_and_iff_or_not.mp hpp with hx | hx <;>
                      simp only [ne_eq, not_not] at hx
                    · left
                      rw [hp, hx]
                    · right
                      rw [hp, hx]
                · have := ih u
                  rw [hh] at this
                  exact this hu

/-- `crawlStep` preserves "every queued URL passes the same-origin and
http(s)-scheme filters". -/
theorem crawlStep_queue_good (base : String) (page : String → PageResult)
    (maxPages : Nat) (s s' : CrawlState)
    (hg : ∀ u ∈ s.queue, goodLink base u)
    (h : crawlStep base page maxPages s = .next s') :
    ∀ u ∈ s'.queue, goodLink base u := by
  obtain ⟨qu, vis, disc⟩ := s
  unfold crawlStep at h
  rcases qu with _ | ⟨q, qs⟩
  · simp at h
  · simp only at h
    simp only [List.mem_cons] at hg
    have hqs : ∀ u ∈ qs, goodLink base u := fun u hu => hg u (Or.inr hu)
    by_cases hlen : disc.length < maxPages
    · rw [if_pos hlen] at h
      rcases hn : normalizeUrl q with _ | current <;> rw [hn] at h
      · simp at h
      · simp only at h
        by_cases hv : current ∈ vis
        · rw [if_pos hv] at h
          cases h
          exact hqs
        · rw [if_neg hv] at h
          rcases hp : page current with _ | _ | ls <;> rw [hp] at h <;>
            simp only [StepOut.next.injEq] at h <;> subst h
          · exact hqs
          · exact hqs
          · rcases hh : harvestLinks base (current :: vis) ls with ⟨enq, ok⟩
            intro u hu
            simp only [List.mem_append] at hu
            rcases hu with hu | hu
            · exact hqs u hu
            · have := harvestLinks_good base (current :: vis) ls u
              rw [hh] at this
              exact this hu
    · rw [if_neg hlen] at h
      simp at h

theorem iterateCrawl_queue_good (base : String) (page : String → PageResult)
    (maxPages : Nat) (n : Nat) (s s' : CrawlState)
    (hg : ∀ u ∈ s.queue, goodLink base u)
    (h : iterateCrawl base page maxPages n s = some s') :
    ∀ u ∈ s'.queue, goodLink base u := by
  induction n generalizing s with
  | zero =>
    cases h
    exact hg
  | succ n ih =>
    unfold iterateCrawl at h
    rcases hstep : crawlStep base page maxPages s with r | _ | s1 <;>
      rw [hstep] at h <;> simp only at h
    · cases h
    · cases h
    · exact ih s1 (crawlStep_queue_good base page maxPages s s1 hg hstep) h

/-! ## Unfolding lemmas for the orchestrator loop -/

theorem runLoop_none (o : TaskName → Bool) (a : Bool) (mem file : TaskCfg) (r : Bool)
    (ex : List TaskName) (ws : List TaskCfg) (h : findNextPending mem = none) :
    runLoop o a mem file r ex ws = ⟨ex.reverse, file, ws.reverse, true⟩ := by
  rw [runLoop]
  split <;> simp_all

theorem runLoop_stop (o : TaskName → Bool) (a : Bool) (mem file : TaskCfg) (r : Bool)
    (ex : List TaskName) (ws : List TaskCfg) (t : TaskName)
    (h : findNextPending mem = some t) (ho : o t = true)
    (hr : (r || (t == .crawl && a)) = false) :
    runLoop o a mem file r ex ws =
      ⟨(t :: ex).reverse, (mem.set t .running).set t .done,
        (((mem.set t .running).set t .done) ::
          (if t = .crawl then [stageIniEffect t (mem.set t .running)] else []) ++
            (mem.set t .running) :: ws).reverse, true⟩ := by
  rw [runLoop]
  split <;> simp_all

theorem runLoop_go (o : TaskName → Bool) (a : Bool) (mem file : TaskCfg) (r : Bool)
    (ex : List TaskName) (ws : List TaskCfg) (t : TaskName)
    (h : findNextPending mem = some t) (ho : o t = true)
    (hr : (r || (t == .crawl && a)) = true) :
    runLoop o a mem file r ex ws =
      runLoop o a ((mem.set t .running).set t .done) ((mem.set t .running).set t .done)
        (r || (t == .crawl && a)) (t :: ex)
        ((((mem.set t .running).set t .done) ::
          (if t = .crawl then [stageIniEffect t (mem.set t .running)] else []) ++
            (mem.set t .running) :: ws)) := by
  rw [runLoop]
  split <;> simp_all

theorem runLoop_fail (o : TaskName → Bool) (a : Bool) (mem file : TaskCfg) (r : Bool)
    (ex : List TaskName) (ws : List TaskCfg) (t : TaskName)
    (h : findNextPending mem = some t) (ho : o t = false) :
    runLoop o a mem file r ex ws =
      ⟨(t :: ex).reverse, (mem.set t .running).set t .failed,
        (((mem.set t .running).set t .failed) :: (mem.set t .running) :: ws).reverse, false⟩ := by
  rw [runLoop]
  split <;> simp_all

/-! ## Claim theorems: orchestrator -/

/-- **C3**: from a persisted state with every stage `pending`, two
successive single-step invocations execute Discovery (`crawl`) then
Capture (`snapshot`), in that order, and after each invocation exactly
that one stage's persisted status has changed, to `done`. -/
theorem stage_gating_two_steps :
    (runTask allPending false false allSucceed).executed = [.crawl] ∧
    (runTask allPending false false allSucceed).file = allPending.set .crawl .done ∧
    (runTask (allPending.set .crawl .done) false false allSucceed).executed = [.snapshot] ∧
    (runTask (allPending.set .crawl .done) false false allSucceed).file
      = (allPending.set .crawl .done).set .snapshot .done := by
  have h1 : runTask allPending false false allSucceed =
      ⟨[.crawl], allPending.set .crawl .done,
        [allPending.set .crawl .running,
         (allPending.set .crawl .running).set .snapshot .done,
         allPending.set .crawl .done], true⟩ := by
    unfold runTask
    rw [runLoop_stop _ _ _ _ _ _ _ .crawl (by rfl) (by rfl) (by rfl)]
    simp [TaskCfg.set, allPending, stageIniEffect]
  have h2 : runTask (allPending.set .crawl .done) false false allSucceed =
      ⟨[.snapshot], (allPending.set .crawl .done).set .snapshot .done,
        [(allPending.set .crawl .done).set .snapshot .running,
         (allPending.set .crawl .done).set .snapshot .done], true⟩ := by
    unfold runTask
    rw [runLoop_stop _ _ _ _ _ _ _ .snapshot (by rfl) (by rfl) (by rfl)]
    simp [TaskCfg.set, allPending, stageIniEffect]
  rw [h1, h2]
  exact ⟨rfl, rfl, rfl, rfl⟩

/-- **C1 (counterexample)**: with Capture (`snapshot`) persisted as
`failed` and Analyze (`axe_scan`) `pending`, the next-actionable scan
selects `axe_scan` — it does not halt — and a run-all invocation executes
Analyze (and the remaining stages) successfully. -/
theorem nextActionable_skips_failed_cex :
    findNextPending ⟨.done, .failed, .pending, .pending, .pending⟩ = some .axe_scan ∧
    (runTask ⟨.done, .failed, .pending, .pending, .pending⟩ true false allSucceed).executed
      = [.axe_scan, .filter, .report] ∧
    (runTask ⟨.done, .failed, .pending, .pending, .pending⟩ true false allSucceed).ok = true := by
  have hrun : runTask ⟨.done, .failed, .pending, .pending, .pending⟩ true false allSucceed =
      ⟨[.axe_scan, .filter, .report], ⟨.done, .failed, .done, .done, .done⟩,
        [⟨.done, .failed, .running, .pending, .pending⟩,
         ⟨.done, .failed, .done, .pending, .pending⟩,
         ⟨.done, .failed, .done, .running, .pending⟩,
         ⟨.done, .failed, .done, .done, .pending⟩,
         ⟨.done, .failed, .done, .done, .running⟩,
         ⟨.done, .failed, .done, .done, .done⟩], true⟩ := by
    unfold runTask
    rw [runLoop_go _ _ _ _ _ _ _ .axe_scan (by rfl) (by rfl) (by rfl)]
    rw [runLoop_go _ _ _ _ _ _ _ .filter (by rfl) (by rfl) (by rfl)]
    rw [runLoop_go _ _ _ _ _ _ _ .report (by rfl) (by rfl) (by rfl)]
    rw [runLoop_none _ _ _ _ _ _ _ (by rfl)]
    simp [TaskCfg.set, stageIniEffect]
  rw [hrun]
  exact ⟨rfl, rfl, rfl⟩

/-- **C1 (amended)**: the next-actionable scan returns the first stage
whose status is `pending` or `running`, skipping `done` AND `failed`
stages alike — so a `failed` Capture does not block later stages: a
run-all from ⟨done, failed, pending, pending, pending⟩ executes the three
remaining stages while `snapshot` itself stays `failed` until an explicit
reset, which sets every stage back to `pending`. -/
theorem nextActionable_skips_failed :
    (∀ (c : TaskCfg) (t : TaskName), findNextPending c = some t →
        c.get t = .pending ∨ c.get t = .running) ∧
    (runTask ⟨.done, .failed, .pending, .pending, .pending⟩ true false allSucceed).file
        = ⟨.done, .failed, .done, .done, .done⟩ ∧
    (∀ c : TaskCfg, resetAllTasks c = allPending) := by
  refine ⟨?_, ?_, fun _ => rfl⟩
  · intro c t h
    unfold findNextPending at h
    have hp0 := List.find?_some h
    have hp : statusActionable (c.get t) = true := hp0
    cases hg : c.get t
    · exact Or.inl rfl
    · exact Or.inr rfl
    · rw [hg] at hp
      exact absurd hp (by decide)
    · rw [hg] at hp
      exact absurd hp (by decide)
  · unfold runTask
    rw [runLoop_go _ _ _ _ _ _ _ .axe_scan (by rfl) (by rfl) (by rfl)]
    rw [runLoop_go _ _ _ _ _ _ _ .filter (by rfl) (by rfl) (by rfl)]
    rw [runLoop_go _ _ _ _ _ _ _ .report (by rfl) (by rfl) (by rfl)]
    rw [runLoop_none _ _ _ _ _ _ _ (by rfl)]
    rfl

/-- Witness for `nextActionable_skips_failed` at a concrete state. -/
theorem nextActionable_skips_failed_w :
    findNextPending allPending = some .crawl ∧
    (allPending.get .crawl = .pending ∨ allPending.get .crawl = .running) :=
  ⟨rfl, nextActionable_skips_failed.1 allPending .crawl rfl⟩

/-- **C4**: after a fully successful `--all` run from all-pending, the code
leaves ALL five stages `done`; no trailing reset of `axe_scan`, `filter`,
`report` to `pending` happens before exit (the repository README documents
such a reset, but `run-task.ts` does not perform it). -/
theorem trailing_reset_missing :
    (runTask allPending true false allSucceed).executed
        = [.crawl, .snapshot, .axe_scan, .filter, .report] ∧
    (runTask allPending true false allSucceed).file = ⟨.done, .done, .done, .done, .done⟩ ∧
    (runTask allPending true false allSucceed).file.axe_scan ≠ .pending := by
  have hrun : (runTask allPending true false allSucceed).executed
        = [.crawl, .snapshot, .axe_scan, .filter, .report] ∧
      (runTask allPending true false allSucceed).file = ⟨.done, .done, .done, .done, .done⟩ := by
    unfold runTask
    rw [runLoop_go _ _ _ _ _ _ _ .crawl (by rfl) (by rfl) (by rfl)]
    rw [runLoop_go _ _ _ _ _ _ _ .snapshot (by rfl) (by rfl) (by rfl)]
    rw [runLoop_go _ _ _ _ _ _ _ .axe_scan (by rfl) (by rfl) (by rfl)]
    rw [runLoop_go _ _ _ _ _ _ _ .filter (by rfl) (by rfl) (by rfl)]
    rw [runLoop_go _ _ _ _ _ _ _ .report (by rfl) (by rfl) (by rfl)]
    rw [runLoop_none _ _ _ _ _ _ _ (by rfl)]
    exact ⟨rfl, rfl⟩
  refine ⟨hrun.1, hrun.2, ?_⟩
  rw [hrun.2]
  decide

/-- **C10**: when the orchestrator runs the Discovery (`crawl`) stage, the
stage body's own `task.ini` write marks `snapshot` as `done` (second entry
of the write trace), but the orchestrator's final write persists its stale
in-memory state, so the persisted `snapshot` status after the invocation
equals its value at selection time. -/
theorem crawl_clobbers_snapshot_status (init : TaskCfg) (outcome : TaskName → Bool)
    (hc : statusActionable (init.get .crawl) = true) (ho : outcome .crawl = true) :
    (runTask init false false outcome).executed = [.crawl] ∧
    (runTask init false false outcome).writes =
      [init.set .crawl .running,
       (init.set .crawl .running).set .snapshot .done,
       (init.set .crawl .running).set .crawl .done] ∧
    (runTask init false false outcome).file.snapshot = init.snapshot := by
  have hfind : findNextPending init = some .crawl := by
    unfold findNextPending TASK_ORDER
    exact List.find?_cons_of_pos _ hc
  unfold runTask
  rw [runLoop_stop _ _ _ _ _ _ _ .crawl hfind ho (by rfl)]
  refine ⟨rfl, ?_, ?_⟩
  · simp [stageIniEffect]
  · simp [TaskCfg.set]

/-- Witness for `crawl_clobbers_snapshot_status` from the all-pending
state: mid-run the file says `snapshot = done`, the final file says
`snapshot = pending`. -/
theorem crawl_clobbers_snapshot_status_w :
    statusActionable (allPending.get .crawl) = true ∧
    (runTask allPending false false allSucceed).writes =
      [allPending.set .crawl .running,
       (allPending.set .crawl .running).set .snapshot .done,
       (allPending.set .crawl .running).set .crawl .done] ∧
    (runTask allPending false false allSucceed).file.snapshot = .pending := by
  have h := crawl_clobbers_snapshot_status allPending allSucceed (by decide) rfl
  exact ⟨by decide, h.2.1, h.2.2.trans rfl⟩

/-! ## Claim theorems: URL normalization and the crawler -/

/-- **C5 (counterexample)**: `normalizeUrl` is `new URL` round-tripping,
which canonicalizes: on `https://a:443/b#frag` the default port is elided,
so the port of the input is NOT preserved verbatim. -/
theorem normalize_not_verbatim_cex :
    normalizeUrl "https://a:443/b#frag" = some "https://a/b" ∧
    normalizeUrl "https://a:443/b#frag" ≠ some "https://a:443/b" := by decide

/-- **C2 (counterexample)**: for base `https://site.example/` with a
link-free seed page and the default configured path list, the standalone
crawler's BFS discovery list and the list `runCrawlInline` persists differ. -/
theorem inline_discovery_cex :
    discover "https://site.example/" (fun _ => .links []) 20 = some ["https://site.example/"] ∧
    inlineDiscoveryList "https://site.example/" DEFAULT_A11Y_PATHS (fun _ => true) =
      ["https://site.example/home", "https://site.example/advisor-dashboard",
       "https://site.example/programme", "https://site.example/organisation"] ∧
    some (inlineDiscoveryList "https://site.example/" DEFAULT_A11Y_PATHS (fun _ => true)) ≠
      discover "https://site.example/" (fun _ => .links []) 20 := by
  have hd : discover "https://site.example/" (fun _ => .links []) 20
      = some ["https://site.example/"] := by
    unfold discover
    rw [crawlLoop_next _ _ _ _
      ⟨[], ["https://site.example/"], ["https://site.example/"]⟩ (by rfl)]
    exact crawlLoop_halted _ _ _ _ _ (by rfl)
  have hi : inlineDiscoveryList "https://site.example/" DEFAULT_A11Y_PATHS (fun _ => true) =
      ["https://site.example/home", "https://site.example/advisor-dashboard",
       "https://site.example/programme", "https://site.example/organisation"] := by decide
  refine ⟨hd, hi, ?_⟩
  rw [hd, hi]
  decide

/-- **C2 (amended)**: the orchestrator's in-process Discovery execution
does not run the BFS crawler: the list it captures and persists is exactly
the configured path list resolved against the base URL, independent of any
navigation outcome (the standalone `scripts/crawl.ts` BFS is the only
implementation of the §4.1 traversal, and the two lists differ in general,
per `inline_discovery_cex`). -/
theorem inline_discovery_fixed_list (baseUrl rawList : String) (nav nav2 : String → Bool) :
    inlineDiscoveryList baseUrl rawList nav = inlineUrlList baseUrl rawList ∧
    inlineDiscoveryList baseUrl rawList nav = inlineDiscoveryList baseUrl rawList nav2 := by
  have key : ∀ (nv : String → Bool) (l : List String), captureLoop nv l = l := by
    intro nv l
    induction l with
    | nil => rfl
    | cons u us ih =>
      unfold captureLoop
      split <;> rw [ih]
  unfold inlineDiscoveryList
  rw [key, key]
  exact ⟨rfl, rfl⟩

/-- **C6 (failing input)**: link extraction fails after a successful
navigation of the seed (`$$eval` or a link's `new URL` throws); the
`catch` block then records the seed a second time, so the discovery list
contains a duplicate. -/
theorem visited_once_violation :
    discover "https://a.example/" (fun _ => .evalFail) 2
        = some ["https://a.example/", "https://a.example/"] ∧
    ¬ (["https://a.example/", "https://a.example/"] : List String).Nodup := by
  constructor
  · unfold discover
    rw [crawlLoop_next _ _ _ _
      ⟨[], ["https://a.example/"], ["https://a.example/", "https://a.example/"]⟩ (by rfl)]
    exact crawlLoop_halted _ _ _ _ _ (by rfl)
  · decide

/-- **C7**: a budget of `0` does yield an empty list without navigating,
but the bound `len(discover(seed, N)) ≤ N` fails: with budget `1`, a seed
whose link extraction fails after successful navigation yields a
discovery list of length `2`. -/
theorem budget_bound_violation :
    (∀ (base : String) (page : String → PageResult), discover base page 0 = some []) ∧
    (discover "https://a.example/" (fun _ => .evalFail) 1).map List.length = some 2 := by
  constructor
  · intro base page
    unfold discover
    exact crawlLoop_halted _ _ _ _ _ (by rfl)
  · have hd : discover "https://a.example/" (fun _ => .evalFail) 1
        = some ["https://a.example/", "https://a.example/"] := by
      unfold discover
      rw [crawlLoop_next _ _ _ _
        ⟨[], ["https://a.example/"], ["https://a.example/", "https://a.example/"]⟩ (by rfl)]
      exact crawlLoop_halted _ _ _ _ _ (by rfl)
    rw [hd]
    rfl

/-- **C8**: when navigation to the dequeued, unvisited URL fails, the URL
is still appended (once) to the discovery list, no links are harvested
from it (the queue continues with exactly the remaining entries), and the
traversal continues; the URL appears in whatever list the crawl returns. -/
theorem failed_nav_progress (base : String) (page : String → PageResult)
    (maxPages : Nat) (q current : String) (qs visited discovered : List String)
    (hn : normalizeUrl q = some current) (hv : current ∉ visited)
    (hlen : discovered.length < maxPages) (hp : page current = .unreachable) :
    crawlLoop base page maxPages ⟨q :: qs, visited, discovered⟩
        = crawlLoop base page maxPages ⟨qs, current :: visited, discovered ++ [current]⟩ ∧
    ∀ r, crawlLoop base page maxPages ⟨q :: qs, visited, discovered⟩ = some r →
      current ∈ r := by
  have hstep : crawlStep base page maxPages ⟨q :: qs, visited, discovered⟩
      = .next ⟨qs, current :: visited, discovered ++ [current]⟩ := by
    unfold crawlStep
    simp only
    rw [if_pos hlen, hn]
    simp only
    rw [if_neg hv, hp]
  have heq := crawlLoop_next _ _ _ _ _ hstep
  refine ⟨heq, ?_⟩
  intro r hr
  rw [heq] at hr
  obtain ⟨t, ht⟩ := crawlLoop_extends _ _ _ _ r hr
  simp [ht]

/-- Witness for `failed_nav_progress`: the seed is unreachable and the
queue still holds another URL. -/
theorem failed_nav_progress_w :
    normalizeUrl "https://a.example/" = some "https://a.example/" ∧
    "https://a.example/" ∉ ([] : List String) ∧
    ([] : List String).length < 5 ∧
    pageW8 "https://a.example/" = .unreachable ∧
    crawlLoop "https://a.example/" pageW8 5
        ⟨["https://a.example/", "https://a.example/x"], [], []⟩
      = crawlLoop "https://a.example/" pageW8 5
          ⟨["https://a.example/x"], ["https://a.example/"], ["https://a.example/"]⟩ := by
  refine ⟨by decide, by decide, by decide, by rfl, ?_⟩
  exact (failed_nav_progress "https://a.example/" pageW8 5 "https://a.example/"
    "https://a.example/" ["https://a.example/x"] [] []
    (by decide) (by decide) (by decide) (by rfl)).1

/-- **C9**: every link the harvest loop enqueues passes the code's
same-origin check against the seed and has an `http:`/`https:` protocol;
consequently (given an http(s) seed, which trivially satisfies both
predicates itself) every URL ever in the frontier queue, at every loop
head of any crawl, is same-origin with the seed and http(s): `mailto:`,
`tel:` and cross-origin links are never enqueued. -/
theorem queue_same_origin_http :
    (∀ (base : String) (visited ls : List String) (u : String),
        u ∈ (harvestLinks base visited ls).1 → goodLink base u) ∧
    (∀ (base : String) (page : String → PageResult) (maxPages n : Nat) (s' : CrawlState),
        goodLink base base →
        iterateCrawl base page maxPages n ⟨[base], [], []⟩ = some s' →
        ∀ u ∈ s'.queue, goodLink base u) := by
  constructor
  · intro base visited ls u hu
    exact harvestLinks_good base visited ls u hu
  · intro base page maxPages n s' hb hit u hu
    refine iterateCrawl_queue_good base page maxPages n _ s' ?_ hit u hu
    intro v hv
    simp only [List.mem_singleton] at hv
    subst hv
    exact hb

/-- Witness for `queue_same_origin_http`: a page carrying one same-origin
link, one `mailto:` link and one cross-origin link enqueues only the
same-origin http(s) one. -/
theorem queue_same_origin_http_w :
    ("https://a.example/p" ∈ (harvestLinks "https://a.example/" ["https://a.example/"]
        ["https://a.example/p", "mailto:x@y.example", "https://other.example/q"]).1 ∧
      goodLink "https://a.example/" "https://a.example/p") ∧
    (goodLink "https://a.example/" "https://a.example/" ∧
      iterateCrawl "https://a.example/" pageW9 5 1 ⟨["https://a.example/"], [], []⟩
        = some ⟨["https://a.example/p"], ["https://a.example/"], ["https://a.example/"]⟩ ∧
      goodLink "https://a.example/" "https://a.example/p") := by
  constructor
  · exact ⟨by decide, queue_same_origin_http.1 "https://a.example/" ["https://a.example/"]
      ["https://a.example/p", "mailto:x@y.example", "https://other.example/q"]
      "https://a.example/p" (by decide)⟩
  · refine ⟨by decide, by decide, ?_⟩
    exact queue_same_origin_http.2 "https://a.example/" pageW9 5 1
      ⟨["https://a.example/p"], ["https://a.example/"], ["https://a.example/"]⟩
      (by decide) (by decide) "https://a.example/p" (by decide)



/-! ## URL parser / serializer round-trip (canonical inputs) -/

theorem splitFirst_not_mem (c : Char) (l : List Char) (h : c ∉ l) : splitFirst c l = none := by
  induction l with
  | nil => rfl
  | cons x xs ih =>
    simp only [List.mem_cons, not_or] at h
    unfold splitFirst
    rw [if_neg (fun he => h.1 he.symm)]
    rw [ih h.2]

theorem splitFirst_append (c : Char) (l1 l2 : List Char) (h : c ∉ l1) :
    splitFirst c (l1 ++ c :: l2) = some (l1, l2) := by
  induction l1 with
  | nil => simp [splitFirst]
  | cons x xs ih =>
    simp only [List.mem_cons, not_or] at h
    unfold splitFirst
    simp only [List.cons_append]
    rw [if_neg (fun he => h.1 he.symm)]
    rw [ih h.2]

theorem takeUntil_append_cons (p : Char → Bool) (l1 : List Char) (x : Char) (l2 : List Char)
    (h1 : ∀ y ∈ l1, p y = false) (hx : p x = true) :
    takeUntil p (l1 ++ x :: l2) = (l1, x :: l2) := by
  induction l1 with
  | nil => simp [takeUntil, hx]
  | cons y ys ih =>
    unfold takeUntil
    simp only [List.cons_append]
    rw [h1 y (by simp)]
    simp only [Bool.false_eq_true, if_false]
    rw [ih (fun z hz => h1 z (by simp [hz]))]

theorem natDigits_ne_nil (n : Nat) : natDigits n ≠ [] := by
  rw [natDigits]
  split <;> simp

theorem natDigits_mem (n : Nat) :
    ∀ c ∈ natDigits n, c ∈ (['0','1','2','3','4','5','6','7','8','9'] : List Char) := by
  induction n using Nat.strong_induction_on with
  | _ n ih =>
    rw [natDigits]
    split
    · rename_i h
      interval_cases n <;> decide
    · rename_i h
      intro c hc
      rw [List.mem_append] at hc
      rcases hc with hc | hc
      · exact ih (n / 10) (Nat.div_lt_self (by omega) (by omega)) c hc
      · simp only [List.mem_singleton] at hc
        subst hc
        have hd : n % 10 < 10 := Nat.mod_lt _ (by omega)
        interval_cases hmod : n % 10 <;> simp [hmod] <;> decide

theorem string_eq_of_data (s : String) (l : List Char) (h : s.data = l) : s = String.mk l := by
  obtain ⟨d⟩ := s
  cases h
  rfl

theorem string_mk_data (s : String) : String.mk s.data = s := by
  obtain ⟨d⟩ := s
  rfl

theorem map_self {α : Type} (f : α → α) (l : List α) (h : ∀ c ∈ l, f c = c) : l.map f = l := by
  induction l with
  | nil => rfl
  | cons x xs ih =>
    rw [List.map_cons, h x (by simp), ih (fun c hc => h c (by simp [hc]))]

theorem digitsVal_append_one (l : List Char) (c : Char) :
    digitsVal (l ++ [c]) = 10 * digitsVal l + (c.toNat - 48) := by
  simp [digitsVal, List.foldl_append]

theorem digitsVal_natDigits (n : Nat) : digitsVal (natDigits n) = n := by
  induction n using Nat.strong_induction_on with
  | _ n ih =>
    rw [natDigits]
    split
    · rename_i h
      interval_cases n <;> decide
    · rename_i h
      rw [digitsVal_append_one]
      rw [ih (n / 10) (Nat.div_lt_self (by omega) (by omega))]
      have hd : n % 10 < 10 := Nat.mod_lt _ (by omega)
      have hchar : (Char.ofNat (48 + n % 10)).toNat = 48 + n % 10 := by
        interval_cases hmod : n % 10 <;> simp [hmod] <;> decide
      rw [hchar]
      omega

theorem natDigits_isDigit (n : Nat) : (natDigits n).all Char.isDigit = true := by
  rw [List.all_eq_true]
  intro c hc
  have := natDigits_mem n c hc
  fin_cases this <;> decide

theorem isAuthorityEnd_false (y : Char) (h1 : y ≠ '/') (h2 : y ≠ '?') (h3 : y ≠ '#') :
    isAuthorityEnd y = false := by
  simp [isAuthorityEnd, h1, h2, h3]

theorem portString_not_end (port : Option Nat) :
    ∀ y ∈ (portString port).data, isAuthorityEnd y = false := by
  rcases port with _ | p
  · intro y hy
    simp [portString] at hy
  · intro y hy
    have hd : (portString (some p)).data = ':' :: natDigits p := by
      simp [portString, String.data_append]
    rw [hd] at hy
    rcases List.mem_cons.mp hy with rfl | hy
    · decide
    · have := natDigits_mem p y hy
      fin_cases this <;> decide

theorem parseUrl_http (R : List Char) :
    parseUrl (String.mk (['h','t','t','p'] ++ ':' :: R)) = parseSpecialRest "http" R := by
  unfold parseUrl
  rw [show (String.mk (['h','t','t','p'] ++ ':' :: R)).data = ['h','t','t','p'] ++ ':' :: R from rfl]
  rw [splitFirst_append ':' _ _ (by decide)]
  simp only
  rw [if_pos (by decide)]
  have hsch : String.mk (['h','t','t','p'].map Char.toLower) = "http" := by decide
  simp only [hsch]
  simp

theorem parseUrl_https (R : List Char) :
    parseUrl (String.mk (['h','t','t','p','s'] ++ ':' :: R)) = parseSpecialRest "https" R := by
  unfold parseUrl
  rw [show (String.mk (['h','t','t','p','s'] ++ ':' :: R)).data = ['h','t','t','p','s'] ++ ':' :: R from rfl]
  rw [splitFirst_append ':' _ _ (by decide)]
  simp only
  rw [if_pos (by decide)]
  have hsch : String.mk (['h','t','t','p','s'].map Char.toLower) = "https" := by decide
  simp only [hsch]
  simp

theorem queryPart_no_hash (q : Option String) (hq : queryOk q) :
    ∀ y ∈ (queryPart q).data, y ≠ '#' := by
  rcases q with _ | qs
  · intro y hy
    simp [queryPart] at hy
  · intro y hy
    have hd : (queryPart (some qs)).data = '?' :: qs.data := by
      simp [queryPart, String.data_append]
    rw [hd] at hy
    rcases List.mem_cons.mp hy with rfl | hy
    · decide
    · exact hq y hy

theorem parseSpecialRest_correct (sch host path : String) (port : Option Nat)
    (q : Option String) (f : String)
    (hh : hostOk host) (hport : portOkC sch port) (hpath : pathOk path) (hq : queryOk q) :
    parseSpecialRest sch
        ('/' :: '/' :: (host.data ++ (portString port).data ++ path.data
          ++ (queryPart q).data ++ '#' :: f.data))
      = some (Url.special sch host port path q (some f)) := by
  obtain ⟨hhne, hhc⟩ := hh
  obtain ⟨⟨prest, hpr⟩, hpc⟩ := hpath
  have hAuth : ∀ y ∈ host.data ++ (portString port).data, isAuthorityEnd y = false := by
    intro y hy
    rcases List.mem_append.mp hy with hy | hy
    · have hc := hhc y hy
      exact isAuthorityEnd_false y hc.2.1 hc.2.2.1 hc.2.2.2.1
    · exact portString_not_end _ y hy
  have hr1 : host.data ++ (portString port).data ++ path.data ++ (queryPart q).data ++ '#' :: f.data
      = (host.data ++ (portString port).data)
        ++ '/' :: (prest ++ (queryPart q).data ++ '#' :: f.data) := by
    rw [hpr]
    simp [List.append_assoc]
  have htake : takeUntil isAuthorityEnd (host.data ++ (portString port).data ++ path.data
        ++ (queryPart q).data ++ '#' :: f.data)
      = (host.data ++ (portString port).data,
         path.data ++ (queryPart q).data ++ '#' :: f.data) := by
    rw [hr1, takeUntil_append_cons _ _ _ _ hAuth (by decide), hpr]
    simp [List.append_assoc]
  have hne' : host.data ≠ [] := by
    intro h0
    exact hhne ((string_eq_of_data host [] h0).trans (by decide))
  have h_at : (host.data.any fun c => c = '@') = false := by
    rw [List.any_eq_false]
    intro x hx
    simp only [decide_eq_true_eq]
    exact (hhc x hx).2.2.2.2.2
  have hlowd : List.map Char.toLower host.data = host.data :=
    map_self Char.toLower host.data fun c hc => (hhc c hc).1
  have hhash : splitFirst '#' (path.data ++ (queryPart q).data ++ '#' :: f.data)
      = some (path.data ++ (queryPart q).data, f.data) := by
    have e : path.data ++ (queryPart q).data ++ '#' :: f.data
        = (path.data ++ (queryPart q).data) ++ '#' :: f.data := by
      simp [List.append_assoc]
    rw [e]
    refine splitFirst_append '#' _ _ ?_
    intro hmem
    rcases List.mem_append.mp hmem with hm | hm
    · exact (hpc '#' hm).2 rfl
    · exact queryPart_no_hash q hq '#' hm rfl
  have hpathne : ¬ (path.data = []) := by
    rw [hpr]
    simp
  rcases q with _ | qs
  case none =>
    have hq2 : splitFirst '?' (path.data ++ (queryPart (none : Option String)).data) = none := by
      have e : path.data ++ (queryPart (none : Option String)).data = path.data := by
        simp [queryPart]
      rw [e]
      exact splitFirst_not_mem '?' path.data (fun hmem => (hpc '?' hmem).1 rfl)
    rcases port with _ | p
    case none =>
      have e1 : host.data ++ (portString (none : Option Nat)).data = host.data := by
        simp [portString]
      have hsplat : splitFirst ':' (host.data ++ (portString (none : Option Nat)).data) = none := by
        rw [e1]
        exact splitFirst_not_mem ':' host.data (fun hmem => (hhc ':' hmem).2.2.2.2.1 rfl)
      unfold parseSpecialRest
      simp only
      rw [htake]
      dsimp only
      rw [hsplat]
      dsimp only
      rw [e1, if_neg hne', if_neg (by simp [h_at]), hhash]
      dsimp only
      rw [hq2]
      dsimp only
      rw [show path.data ++ (queryPart (none : Option String)).data = path.data from by
        simp [queryPart]]
      rw [if_neg hpathne]
      simp [string_mk_data, hlowd]
    case some =>
      have hsplat : splitFirst ':' (host.data ++ (portString (some p)).data)
          = some (host.data, natDigits p) := by
        rw [show (portString (some p)).data = ':' :: natDigits p from by
          simp [portString, String.data_append]]
        exact splitFirst_append ':' _ _ (fun hmem => (hhc ':' hmem).2.2.2.2.1 rfl)
      rcases hnd : natDigits p with _ | ⟨c0, cs⟩
      · exact absurd hnd (natDigits_ne_nil p)
      · rw [hnd] at hsplat
        have hdig : (c0 :: cs).all Char.isDigit = true := hnd ▸ natDigits_isDigit p
        have hval : digitsVal (c0 :: cs) = p := hnd ▸ digitsVal_natDigits p
        have hport' : ¬ (some p = defaultPort sch) := hport
        have hdef : ¬ (some (digitsVal (c0 :: cs)) = defaultPort sch) := by
          rw [hval]
          exact hport'
        unfold parseSpecialRest
        simp only
        rw [htake]
        dsimp only
        rw [hsplat]
        dsimp only
        rw [if_neg hne', if_neg (by simp [h_at]), if_pos hdig, if_neg hdef, hhash]
        dsimp only
        rw [hq2]
        dsimp only
        rw [show path.data ++ (queryPart (none : Option String)).data = path.data from by
          simp [queryPart]]
        rw [if_neg hpathne, hval]
        simp [string_mk_data, hlowd]
  case some =>
    have hq2 : splitFirst '?' (path.data ++ (queryPart (some qs)).data)
        = some (path.data, qs.data) := by
      rw [show path.data ++ (queryPart (some qs)).data = path.data ++ '?' :: qs.data from by
        simp [queryPart, String.data_append]]
      exact splitFirst_append '?' _ _ (fun hmem => (hpc '?' hmem).1 rfl)
    rcases port with _ | p
    case none =>
      have e1 : host.data ++ (portString (none : Option Nat)).data = host.data := by
        simp [portString]
      have hsplat : splitFirst ':' (host.data ++ (portString (none : Option Nat)).data) = none := by
        rw [e1]
        exact splitFirst_not_mem ':' host.data (fun hmem => (hhc ':' hmem).2.2.2.2.1 rfl)
      unfold parseSpecialRest
      simp only
      rw [htake]
      dsimp only
      rw [hsplat]
      dsimp only
      rw [e1, if_neg hne', if_neg (by simp [h_at]), hhash]
      dsimp only
      rw [hq2]
      dsimp only
      rw [if_neg hpathne]
      simp [string_mk_data, hlowd]
    case some =>
      have hsplat : splitFirst ':' (host.data ++ (portString (some p)).data)
          = some (host.data, natDigits p) := by
        rw [show (portString (some p)).data = ':' :: natDigits p from by
          simp [portString, String.data_append]]
        exact splitFirst_append ':' _ _ (fun hmem => (hhc ':' hmem).2.2.2.2.1 rfl)
      rcases hnd : natDigits p with _ | ⟨c0, cs⟩
      · exact absurd hnd (natDigits_ne_nil p)
      · rw [hnd] at hsplat
        have hdig : (c0 :: cs).all Char.isDigit = true := hnd ▸ natDigits_isDigit p
        have hval : digitsVal (c0 :: cs) = p := hnd ▸ digitsVal_natDigits p
        have hport' : ¬ (some p = defaultPort sch) := hport
        have hdef : ¬ (some (digitsVal (c0 :: cs)) = defaultPort sch) := by
          rw [hval]
          exact hport'
        unfold parseSpecialRest
        simp only
        rw [htake]
        dsimp only
        rw [hsplat]
        dsimp only
        rw [if_neg hne', if_neg (by simp [h_at]), if_pos hdig, if_neg hdef, hhash]
        dsimp only
        rw [hq2]
        dsimp only
        rw [if_neg hpathne, hval]
        simp [string_mk_data, hlowd]

/-- **C5 (amended)**: for a URL string in WHATWG-canonical component form
(scheme `http`/`https`, lowercase host without reserved characters, no
default port, `/`-rooted path without `?`/`#`, query without `#`),
normalization removes exactly the `#fragment` suffix and reproduces
scheme, host, port, path and query verbatim; on non-canonical inputs
`new URL` additionally canonicalizes (see `normalize_not_verbatim_cex`). -/
theorem normalize_strips_fragment_canonical
    (sch host path : String) (port : Option Nat) (q : Option String) (f : String)
    (hs : sch = "http" ∨ sch = "https")
    (hh : hostOk host) (hport : portOkC sch port) (hpath : pathOk path) (hq : queryOk q) :
    normalizeUrl ((Url.special sch host port path q (some f)).href)
      = some ((Url.special sch host port path q none).href) := by
  have hparse : parseUrl ((Url.special sch host port path q (some f)).href)
      = some (Url.special sch host port path q (some f)) := by
    rcases hs with rfl | rfl
    · have hdata : (Url.special "http" host port path q (some f)).href.data
          = ['h','t','t','p'] ++ ':' :: ('/' :: '/' :: (host.data ++ (portString port).data
            ++ path.data ++ (queryPart q).data ++ '#' :: f.data)) := by
        simp [Url.href, fragPart, String.data_append, List.append_assoc,
          show ("http" : String).data = ['h','t','t','p'] from rfl,
          show ("://" : String).data = [':','/','/'] from rfl,
          show ("#" : String).data = ['#'] from rfl]
      rw [string_eq_of_data _ _ hdata, parseUrl_http]
      exact parseSpecialRest_correct "http" host path port q f hh hport hpath hq
    · have hdata : (Url.special "https" host port path q (some f)).href.data
          = ['h','t','t','p','s'] ++ ':' :: ('/' :: '/' :: (host.data ++ (portString port).data
            ++ path.data ++ (queryPart q).data ++ '#' :: f.data)) := by
        simp [Url.href, fragPart, String.data_append, List.append_assoc,
          show ("https" : String).data = ['h','t','t','p','s'] from rfl,
          show ("://" : String).data = [':','/','/'] from rfl,
          show ("#" : String).data = ['#'] from rfl]
      rw [string_eq_of_data _ _ hdata, parseUrl_https]
      exact parseSpecialRest_correct "https" host path port q f hh hport hpath hq
  unfold normalizeUrl
  rw [hparse]
  rfl

/-- Witness for `normalize_strips_fragment_canonical` at the spec's own
example `https://a/b#frag` → `https://a/b`. -/
theorem normalize_strips_fragment_canonical_w :
    (("https" : String) = "http" ∨ ("https" : String) = "https") ∧
    hostOk "a" ∧ portOkC "https" none ∧ pathOk "/b" ∧ queryOk none ∧
    normalizeUrl "https://a/b#frag" = some "https://a/b" := by
  have h := normalize_strips_fragment_canonical "https" "a" "/b" none none "frag"
    (Or.inr rfl) ⟨by decide, by decide⟩ trivial ⟨⟨['b'], rfl⟩, by decide⟩ trivial
  refine ⟨Or.inr rfl, ⟨by decide, by decide⟩, trivial, ⟨⟨['b'], rfl⟩, by decide⟩, trivial, ?_⟩
  have e1 : (Url.special "https" "a" none "/b" none (some "frag")).href = "https://a/b#frag" := by
    decide
  have e2 : (Url.special "https" "a" none "/b" none none).href = "https://a/b" := by decide
  rw [e1, e2] at h
  exact h

end A11y
